import Mathlib

/-!
Verification of the path-cache builder (bookmarks task) and of the
credit-eligibility API of this repository. The bookmarks task itself is not
among the provided source files (only its test suite is), so its operations
`compute_paths` and `materialize` are modelled from the specification, pinned
down where the specification leaves a choice by the behaviour the repository's
tests assert. The credit API (`credit/api.py`) is embedded directly from the
source.
-/

/-! ## Part 1: the course content tree and `compute_paths` -/

/-- Modelled from the spec: a content block is identified by a key and has an
ordered list of children (`get_children`). Structure sharing (a block reachable
via several parents) is represented by the same key occurring at several
positions of the tree, matching the spec's per-edge recursive traversal that
re-descends below a shared block once per incoming edge. Keys are `Nat`. -/
inductive Block : Type where
  | mk (key : Nat) (children : List Block) : Block

def Block.key : Block → Nat
  | .mk k _ => k

def Block.children : Block → List Block
  | .mk _ cs => cs

mutual
/-- Modelled from the spec: the depth-first traversal of `compute_paths`.
`visit b p` visits block `b` with accumulated ancestor path `p`, records the
pair `(b.key, p)`, and gives every child the ancestor path `p ++ [b.key]`.
The result lists, in pre-order, every `(key, ancestor path)` pair produced by
the traversal. -/
def visit : Block → List Nat → List (Nat × List Nat)
  | .mk k cs, p => (k, p) :: visitList cs (p ++ [k])

/-- Traversal of a list of sibling blocks, each with the same accumulated
ancestor path, in order. -/
def visitList : List Block → List Nat → List (Nat × List Nat)
  | [], _ => []
  | c :: cs, p => visit c p ++ visitList cs p
end

/-- The full traversal of a course tree: visit the root with the empty
accumulated path. -/
def traversal (t : Block) : List (Nat × List Nat) :=
  visit t []

/-- The list of ancestor paths `compute_paths` assigns to key `k`: the paths of
all traversal entries for `k`, in pre-order visitation order. -/
def pathsOf (t : Block) (k : Nat) : List (List Nat) :=
  ((traversal t).filter (fun e => e.1 == k)).map (fun e => e.2)

/-- First-occurrence deduplication, keeping the pre-order in which keys are
first visited. -/
def dedupKeys : List Nat → List Nat
  | [] => []
  | k :: ks => k :: (dedupKeys ks).filter (fun x => x != k)

/-- The keys reachable from the root, in first-visit order. -/
def reachableKeys (t : Block) : List Nat :=
  dedupKeys ((traversal t).map (fun e => e.1))

/-- Modelled from the spec: `compute_paths(course_root)` returns a mapping from
every reachable block key to the full list of ancestor paths by which it is
reached, represented as an association list with one entry per reachable key. -/
def compute_paths (t : Block) : List (Nat × List (List Nat)) :=
  (reachableKeys t).map (fun k => (k, pathsOf t k))

/-- The visitation relation of the traversal: `Visits t b p` holds when the
depth-first traversal rooted at `t` visits the (subtree at) block `b` with
accumulated ancestor path `p`. -/
inductive Visits (t : Block) : Block → List Nat → Prop where
  | root : Visits t t []
  | child {b : Block} {p : List Nat} {c : Block} :
      Visits t b p → c ∈ b.children → Visits t c (p ++ [b.key])

/-- A linear-chain course: root → a → b → c. -/
def chain (r a b c : Nat) : Block :=
  .mk r [.mk a [.mk b [.mk c []]]]

/-- A course whose root has two children `p1` and `p2`, each of which contains
the same block `x` (structure sharing). -/
def diamond (r p1 p2 x : Nat) : Block :=
  .mk r [.mk p1 [.mk x []], .mk p2 [.mk x []]]

mutual
/-- The number of occurrences of key `x` in the tree: one per position at which
a block with key `x` sits, i.e. one per incoming edge (the root position
counting as one). -/
def countKey : Block → Nat → Nat
  | .mk k cs, x => (if k = x then 1 else 0) + countKeyList cs x

def countKeyList : List Block → Nat → Nat
  | [], _ => 0
  | c :: cs, x => countKey c x + countKeyList cs x
end

theorem mem_visitList_of_mem {cs : List Block} {p : List Nat} {c : Block}
    (hc : c ∈ cs) {e : Nat × List Nat} (he : e ∈ visit c p) :
    e ∈ visitList cs p := by
  induction cs with
  | nil => cases hc
  | cons d ds ih =>
      rcases List.mem_cons.mp hc with h | h
      · subst h
        exact List.mem_append.mpr (Or.inl he)
      · exact List.mem_append.mpr (Or.inr (ih h))

theorem visit_subset_of_visits {t b : Block} {p : List Nat} (h : Visits t b p) :
    ∀ e ∈ visit b p, e ∈ visit t [] := by
  induction h with
  | root => exact fun e he => he
  | @child b p c hv hc ih =>
      intro e he
      apply ih
      cases b with
      | mk k cs =>
          simp only [Block.children] at hc
          simp only [Block.key] at he
          exact List.mem_cons_of_mem _ (mem_visitList_of_mem hc he)

theorem self_mem_visit (b : Block) (p : List Nat) : (b.key, p) ∈ visit b p := by
  cases b with
  | mk k cs => simp [visit, Block.key]

mutual
theorem length_filter_visit (t : Block) (p : List Nat) (k : Nat) :
    ((visit t p).filter (fun e => e.1 == k)).length = countKey t k := by
  cases t with
  | mk key cs =>
      have hrec := length_filter_visitList cs (p ++ [key]) k
      by_cases h : key = k
      · subst h
        simp [visit, countKey, List.filter_cons, hrec, Nat.add_comm]
      · simp [visit, countKey, List.filter_cons, h, hrec]

theorem length_filter_visitList (cs : List Block) (p : List Nat) (k : Nat) :
    ((visitList cs p).filter (fun e => e.1 == k)).length = countKeyList cs k := by
  cases cs with
  | nil => simp [visitList, countKeyList]
  | cons c cs =>
      simp [visitList, countKeyList, List.filter_append,
        length_filter_visit c p k, length_filter_visitList cs p k]
end

/-- C1: `compute_paths` satisfies the recursive path definition: the root is
visited first with the empty ancestor path (so its path list starts `[]`), every
child of a block visited with accumulated path `P` is recorded with ancestor
path `P ++ [current block key]`, and on a linear chain root→a→b→c with distinct
keys the computed mapping is root:[[]], a:[[root]], b:[[root,a]],
c:[[root,a,b]]. -/
theorem compute_paths_recursive_definition :
    (∀ t : Block, (traversal t).head? = some (t.key, [])) ∧
    (∀ (t b : Block) (p : List Nat), Visits t b p →
      ∀ c ∈ b.children, (c.key, p ++ [b.key]) ∈ traversal t) ∧
    (∀ r a b c : Nat, r ≠ a → r ≠ b → r ≠ c → a ≠ b → a ≠ c → b ≠ c →
      pathsOf (chain r a b c) r = [[]] ∧
      pathsOf (chain r a b c) a = [[r]] ∧
      pathsOf (chain r a b c) b = [[r, a]] ∧
      pathsOf (chain r a b c) c = [[r, a, b]]) := by
  refine ⟨?_, ?_, ?_⟩
  · intro t
    cases t with
    | mk k cs => simp [traversal, visit, Block.key]
  · intro t b p h c hc
    exact visit_subset_of_visits (Visits.child h hc) _ (self_mem_visit c (p ++ [b.key]))
  · intro r a b c hra hrb hrc hab hac hbc
    refine ⟨?_, ?_, ?_, ?_⟩ <;>
      simp [pathsOf, traversal, chain, visit, visitList, List.filter_cons,
        hra, hrb, hrc, hab, hac, hbc, Ne.symm hra, Ne.symm hrb, Ne.symm hrc,
        Ne.symm hab, Ne.symm hac, Ne.symm hbc]

theorem compute_paths_recursive_definition_witness :
    (traversal (chain 0 1 2 3)).head? = some ((chain 0 1 2 3).key, []) ∧
    ((1 : Nat), ([] : List Nat) ++ [(chain 0 1 2 3).key]) ∈ traversal (chain 0 1 2 3) ∧
    pathsOf (chain 0 1 2 3) 3 = [[0, 1, 2]] := by
  refine ⟨compute_paths_recursive_definition.1 (chain 0 1 2 3), ?_, ?_⟩
  · exact compute_paths_recursive_definition.2.1 (chain 0 1 2 3) (chain 0 1 2 3) []
      Visits.root (Block.mk 1 [Block.mk 2 [Block.mk 3 []]]) (by simp [chain, Block.children])
  · exact (compute_paths_recursive_definition.2.2 0 1 2 3 (by decide) (by decide)
      (by decide) (by decide) (by decide) (by decide)).2.2.2

/-- C2: every block has one ancestor path per distinct incoming edge (the
length of its path list equals the number of positions at which it occurs in
the tree), and a block `x` reachable via two distinct parents `p1` and `p2`
that are both children of the root gets exactly the two paths `[r, p1]` and
`[r, p2]`, in parent visitation order. -/
theorem paths_per_incoming_edge :
    (∀ (t : Block) (k : Nat), (pathsOf t k).length = countKey t k) ∧
    (∀ r p1 p2 x : Nat, r ≠ x → p1 ≠ x → p2 ≠ x →
      pathsOf (diamond r p1 p2 x) x = [[r, p1], [r, p2]]) := by
  constructor
  · intro t k
    simp [pathsOf, traversal, List.length_map, length_filter_visit t [] k]
  · intro r p1 p2 x hr h1 h2
    simp [pathsOf, traversal, diamond, visit, visitList, List.filter_cons,
      hr, h1, h2]

theorem paths_per_incoming_edge_witness :
    (pathsOf (diamond 0 1 2 3) 3).length = countKey (diamond 0 1 2 3) 3 ∧
    pathsOf (diamond 0 1 2 3) 3 = [[0, 1], [0, 2]] :=
  ⟨paths_per_incoming_edge.1 (diamond 0 1 2 3) 3,
   paths_per_incoming_edge.2 0 1 2 3 (by decide) (by decide) (by decide)⟩

/-! ## Part 2: the persistent path cache and `materialize` -/

/-- The persistent path-cache store: a list of entries
`(course key, block key, stored paths)`. -/
structure CacheStore where
  entries : List (Nat × Nat × List (List Nat))
deriving DecidableEq

/-- The NotFound-class failure of `materialize`. -/
inductive CacheError where
  | notFound
deriving DecidableEq

/-- Modelled from the spec and pinned by the repository's tests: the data
persisted for a course is one entry per reachable block key, whose stored
paths are the computed ancestor paths with the leading course-root key
dropped (the tests compare the persisted path item at index `i` against the
computed path item at index `i + 1`). -/
def storedData (t : Block) : List (Nat × List (List Nat)) :=
  (compute_paths t).map (fun e => (e.1, e.2.map (fun path => path.drop 1)))

/-- Modelled from the spec: `materialize(course_key)` fetches the course root
for `ck` from the content store `env`; if the root cannot be fetched it fails
with a NotFound error and leaves the store untouched; otherwise it replaces
this course's entries with one entry per freshly computed block key (upsert
plus reconciliation: stale keys are removed), leaving other courses' entries
alone. -/
def materialize (env : Nat → Option Block) (ck : Nat) (s : CacheStore) :
    Except CacheError Unit × CacheStore :=
  match env ck with
  | none => (.error .notFound, s)
  | some root =>
      (.ok (),
        ⟨s.entries.filter (fun e => e.1 != ck) ++
          (storedData root).map (fun e => (ck, e.1, e.2))⟩)

theorem mem_dedupKeys {x : Nat} : ∀ {l : List Nat}, x ∈ dedupKeys l ↔ x ∈ l := by
  intro l
  induction l with
  | nil => simp [dedupKeys]
  | cons k ks ih =>
      by_cases h : x = k
      · subst h; simp [dedupKeys]
      · simp [dedupKeys, List.mem_filter, bne_iff_ne, h, ih]

theorem storedData_eq (t : Block) :
    storedData t = (reachableKeys t).map
      (fun k => (k, (pathsOf t k).map (fun path => path.drop 1))) := by
  simp [storedData, compute_paths, List.map_map]

theorem mem_storedData {t : Block} {k : Nat} {ps : List (List Nat)} :
    (k, ps) ∈ storedData t ↔
      k ∈ reachableKeys t ∧ ps = (pathsOf t k).map (fun path => path.drop 1) := by
  rw [storedData_eq]
  constructor
  · intro h
    obtain ⟨a, ha, heq⟩ := List.mem_map.mp h
    obtain ⟨rfl, rfl⟩ := Prod.mk.injEq .. ▸ heq
    exact ⟨ha, rfl⟩
  · rintro ⟨h1, rfl⟩
    exact List.mem_map.mpr ⟨k, h1, rfl⟩

theorem filter_map_course_eq_nil (ck : Nat) (l : List (Nat × List (List Nat))) :
    (l.map (fun e => (ck, e.1, e.2))).filter
      (fun e : Nat × Nat × List (List Nat) => e.1 != ck) = [] := by
  induction l with
  | nil => rfl
  | cons a l ih => simp [List.filter_cons, ih]

theorem mem_materialize_entries {env : Nat → Option Block} {ck : Nat}
    {s s' : CacheStore} {root : Block} {r : Except CacheError Unit}
    (henv : env ck = some root) (hm : materialize env ck s = (r, s')) :
    ∀ (k : Nat) (ps : List (List Nat)),
      (ck, k, ps) ∈ s'.entries ↔ (k, ps) ∈ storedData root := by
  rw [materialize, henv] at hm
  obtain ⟨-, hs⟩ := Prod.mk.injEq .. ▸ hm
  subst hs
  intro k ps
  constructor
  · intro h
    rcases List.mem_append.mp h with h | h
    · exact absurd (List.mem_filter.mp h).2 (by simp)
    · obtain ⟨e, he, heq⟩ := List.mem_map.mp h
      cases e with
      | mk a b =>
          obtain ⟨-, h1⟩ := Prod.mk.injEq .. ▸ heq
          obtain ⟨rfl, rfl⟩ := Prod.mk.injEq .. ▸ h1
          exact he
  · intro h
    exact List.mem_append.mpr (Or.inr (List.mem_map.mpr ⟨(k, ps), h, rfl⟩))

/-- C3: after a successful materialize for a course, the course's cache
entries are exactly the blocks reachable from its root; in particular a block
no longer reachable in the tree used by the second of two materializations
has no entry afterwards. -/
theorem materialize_entries_exactly_reachable :
    (∀ (env : Nat → Option Block) (ck : Nat) (s s' : CacheStore) (root : Block)
      (r : Except CacheError Unit),
      env ck = some root → materialize env ck s = (r, s') →
      ∀ k : Nat, (∃ ps, (ck, k, ps) ∈ s'.entries) ↔ k ∈ reachableKeys root) ∧
    (∀ (env1 env2 : Nat → Option Block) (ck : Nat) (s : CacheStore)
      (root1 root2 : Block) (k : Nat),
      env1 ck = some root1 → env2 ck = some root2 → k ∉ reachableKeys root2 →
      ¬ ∃ ps, (ck, k, ps) ∈ (materialize env2 ck (materialize env1 ck s).2).2.entries) := by
  have main : ∀ (env : Nat → Option Block) (ck : Nat) (s s' : CacheStore)
      (root : Block) (r : Except CacheError Unit),
      env ck = some root → materialize env ck s = (r, s') →
      ∀ k : Nat, (∃ ps, (ck, k, ps) ∈ s'.entries) ↔ k ∈ reachableKeys root := by
    intro env ck s s' root r henv hm k
    constructor
    · rintro ⟨ps, hps⟩
      exact (mem_storedData.mp ((mem_materialize_entries henv hm k ps).mp hps)).1
    · intro hk
      exact ⟨(pathsOf root k).map (fun path => path.drop 1),
        (mem_materialize_entries henv hm k _).mpr (mem_storedData.mpr ⟨hk, rfl⟩)⟩
  refine ⟨main, ?_⟩
  intro env1 env2 ck s root1 root2 k h1 h2 hk h
  exact hk ((main env2 ck _ _ root2 _ h2 rfl k).mp h)

theorem materialize_entries_exactly_reachable_witness :
    ((∃ ps, ((0 : Nat), (2 : Nat), ps) ∈
        (materialize (fun _ => some (chain 0 1 2 3)) 0 ⟨[]⟩).2.entries) ↔
      (2 : Nat) ∈ reachableKeys (chain 0 1 2 3)) ∧
    ¬ ∃ ps, ((0 : Nat), (9 : Nat), ps) ∈
      (materialize (fun _ => some (chain 0 1 2 3)) 0
        (materialize (fun _ => some (diamond 0 1 2 9)) 0 ⟨[]⟩).2).2.entries :=
  ⟨materialize_entries_exactly_reachable.1 (fun _ => some (chain 0 1 2 3)) 0
      ⟨[]⟩ _ (chain 0 1 2 3) _ rfl rfl 2,
   materialize_entries_exactly_reachable.2 (fun _ => some (diamond 0 1 2 9))
      (fun _ => some (chain 0 1 2 3)) 0 ⟨[]⟩ (diamond 0 1 2 9) (chain 0 1 2 3) 9
      rfl rfl (by decide)⟩

/-- C4: `materialize` is idempotent: a second call on an unchanged tree
returns the same result and leaves the store exactly as after the first
call. -/
theorem materialize_idempotent (env : Nat → Option Block) (ck : Nat)
    (s s' : CacheStore) (u : Unit)
    (h : materialize env ck s = (.ok u, s')) :
    materialize env ck s' = (.ok u, s') := by
  cases henv : env ck with
  | none =>
      rw [materialize, henv] at h
      exact absurd (congrArg Prod.fst h) (by simp)
  | some root =>
      rw [materialize, henv] at h
      obtain ⟨hr, hs⟩ := Prod.mk.injEq .. ▸ h
      subst hs
      rw [materialize, henv, ← hr]
      have hB := filter_map_course_eq_nil ck (storedData root)
      simp [List.filter_append, hB, List.filter_filter]

theorem materialize_idempotent_witness :
    materialize (fun _ => some (chain 0 1 2 3)) 0
        ⟨[(0, 0, [[]]), (0, 1, [[]]), (0, 2, [[1]]), (0, 3, [[1, 2]])]⟩ =
      (.ok (), ⟨[(0, 0, [[]]), (0, 1, [[]]), (0, 2, [[1]]), (0, 3, [[1, 2]])]⟩) :=
  materialize_idempotent (fun _ => some (chain 0 1 2 3)) 0 ⟨[]⟩ _ () rfl

/-- C5: materialize on a course key that does not resolve to a tree root fails
with the NotFound error and leaves the cache store exactly as it was. -/
theorem materialize_notFound (env : Nat → Option Block) (ck : Nat)
    (s : CacheStore) (h : env ck = none) :
    materialize env ck s = (.error .notFound, s) := by
  simp [materialize, h]

theorem materialize_notFound_witness :
    materialize (fun _ => none) 0 ⟨[(1, 2, [[3]])]⟩ =
      (.error .notFound, ⟨[(1, 2, [[3]])]⟩) :=
  materialize_notFound (fun _ => none) 0 ⟨[(1, 2, [[3]])]⟩ rfl

mutual
theorem visit_path_extends (t : Block) (p : List Nat) :
    ∀ e ∈ visit t p, ∃ q, e.2 = p ++ q := by
  cases t with
  | mk k cs =>
      intro e he
      rcases List.mem_cons.mp he with h | h
      · exact ⟨[], by rw [h]; simp⟩
      · obtain ⟨q, hq⟩ := visitList_path_extends cs (p ++ [k]) e h
        exact ⟨k :: q, by simp [hq]⟩

theorem visitList_path_extends (cs : List Block) (p : List Nat) :
    ∀ e ∈ visitList cs p, ∃ q, e.2 = p ++ q := by
  cases cs with
  | nil => intro e he; cases he
  | cons c cs =>
      intro e he
      rcases List.mem_append.mp he with h | h
      · exact visit_path_extends c p e h
      · exact visitList_path_extends cs p e h
end

theorem pathsOf_head {t : Block} {k : Nat} (hk : k ≠ t.key) :
    ∀ path ∈ pathsOf t k, path.head? = some t.key := by
  intro path hp
  simp only [pathsOf, List.mem_map] at hp
  obtain ⟨e, he, rfl⟩ := hp
  have hmem := (List.mem_filter.mp he).1
  have hek : e.1 = k := by
    have := (List.mem_filter.mp he).2
    simpa using this
  cases t with
  | mk key cs =>
      simp only [Block.key] at hk
      simp only [traversal, visit] at hmem
      rcases List.mem_cons.mp hmem with h | h
      · rw [h] at hek
        exact absurd hek.symm hk
      · obtain ⟨q, hq⟩ := visitList_path_extends cs ([] ++ [key]) e h
        rw [hq]
        simp [Block.key]

/-- C8: the persisted paths exclude the course root: every entry stored by
materialize holds the computed ancestor paths with their leading key dropped,
and for every block other than the root each computed ancestor path begins
with the root key, so the stored path item at index `i` is the computed path
item at index `i + 1`. -/
theorem stored_paths_drop_root (env : Nat → Option Block) (ck : Nat)
    (s s' : CacheStore) (root : Block) (r : Except CacheError Unit)
    (henv : env ck = some root) (hm : materialize env ck s = (r, s')) :
    ∀ k ps, (ck, k, ps) ∈ s'.entries →
      ps = (pathsOf root k).map (fun path => path.drop 1) ∧
      (k ≠ root.key → ∀ path ∈ pathsOf root k,
        path.head? = some root.key ∧
        ∀ i : Nat, (path.drop 1).get? i = path.get? (i + 1)) := by
  intro k ps hps
  have hst := mem_storedData.mp ((mem_materialize_entries henv hm k ps).mp hps)
  refine ⟨hst.2, ?_⟩
  intro hk path hpath
  refine ⟨pathsOf_head hk path hpath, ?_⟩
  intro i
  cases path with
  | nil =>
      have := pathsOf_head hk [] hpath
      simp at this
  | cons a l => simp

theorem stored_paths_drop_root_witness :
    ([[1]] : List (List Nat)) =
      (pathsOf (chain 0 1 2 3) 2).map (fun path => path.drop 1) ∧
    (([0, 1] : List Nat).head? = some (chain 0 1 2 3).key ∧
      ∀ i : Nat,
        (([0, 1] : List Nat).drop 1).get? i = ([0, 1] : List Nat).get? (i + 1)) := by
  have h := stored_paths_drop_root (fun _ => some (chain 0 1 2 3)) 0 ⟨[]⟩ _
    (chain 0 1 2 3) _ rfl rfl 2 [[1]] (by decide)
  exact ⟨h.1, h.2 (by decide) [0, 1] (by decide)⟩

/-! ## Part 3: the credit API (`credit/api.py`) -/

/-- A requirement dict as passed to `set_credit_requirements`: the four keys
the API inspects. `none` models an absent key; for the three string-valued
keys the source treats an absent key and an empty value alike (Python
truthiness of `requirement.get(...)`). The contents of `criteria` are opaque
to the API and modelled as a string. -/
structure Requirement where
  «namespace» : Option String
  name : Option String
  display_name : Option String
  criteria : Option String
deriving DecidableEq

/-- Python truthiness of a string-valued dict access: false when the key is
absent or holds the empty string. -/
def truthy (o : Option String) : Bool :=
  !(o.getD "" == "")

/-- Embeds `_validate_requirements`: collects, for each invalid requirement,
the requirement together with its missing/invalid parameter names, in source
order (the source formats each pair into a message string). -/
def _validate_requirements : List Requirement → List (Requirement × List String)
  | [] => []
  | requirement :: rest =>
      let invalid_params : List String :=
        (if truthy requirement.«namespace» then [] else ["namespace"]) ++
        (if truthy requirement.name then [] else ["name"]) ++
        (if truthy requirement.display_name then [] else ["display_name"]) ++
        (if requirement.criteria.isNone then ["criteria"] else [])
      if invalid_params.isEmpty then _validate_requirements rest
      else (requirement, invalid_params) :: _validate_requirements rest

/-- A requirement that passes `_validate_requirements`. -/
def requirementValid (r : Requirement) : Bool :=
  truthy r.«namespace» && truthy r.name && truthy r.display_name &&
    !r.criteria.isNone

/-- Modelled from the spec: a `CreditRequirement` ORM row (the models module
is absent from the provided sources). A requirement is identified within its
course by (namespace, name) — the glossary's "named criterion" — and `active`
is the disable flag. -/
structure CreditRequirementRow where
  id : Nat
  course_key : Nat
  «namespace» : String
  name : String
  display_name : String
  criteria : String
  active : Bool
deriving DecidableEq

/-- Modelled from the spec: a `CreditProvider` ORM row. -/
structure CreditProviderRow where
  provider_id : Nat
  display_name : String
  eligibility_duration : Option Nat
  provider_url : String
deriving DecidableEq

/-- Modelled from the spec: a `CreditCourse` ORM row with its providers. -/
structure CreditCourseRow where
  course_key : Nat
  providers : List CreditProviderRow
deriving DecidableEq

/-- Modelled from the spec: a `CreditEligibility` ORM row. -/
structure CreditEligibilityRow where
  username : String
  course : CreditCourseRow
  created : Nat
deriving DecidableEq

/-- Modelled from the spec: the relational store behind the credit API. -/
structure CreditDB where
  credit_courses : List CreditCourseRow
  requirements : List CreditRequirementRow
  eligibilities : List CreditEligibilityRow
deriving DecidableEq

/-- Modelled from the spec: `CreditCourse.get_credit_course(course_key)`; the
source raises `CreditCourse.DoesNotExist` when absent, modelled by `none`. -/
def get_credit_course (db : CreditDB) (course_key : Nat) :
    Option CreditCourseRow :=
  db.credit_courses.find? (fun c => c.course_key == course_key)

/-- Modelled from the spec: `CreditRequirement.get_course_requirements` — the
active requirement rows of a course. -/
def get_course_requirements (db : CreditDB) (course_key : Nat) :
    List CreditRequirementRow :=
  db.requirements.filter (fun r => r.course_key == course_key && r.active)

/-- Modelled from the spec: `CreditRequirement.disable_credit_requirements` —
clears the `active` flag of the rows with the given ids. -/
def disable_credit_requirements (db : CreditDB) (ids : List Nat) : CreditDB :=
  { db with requirements :=
      db.requirements.map (fun r =>
        if ids.contains r.id then { r with active := false } else r) }

/-- Modelled from the spec:
`CreditRequirement.add_or_update_course_requirement` — upsert of the
requirement identified by (course, namespace, name): update the existing row
(re-activating it) or append a fresh row. Called only after validation, so the
requirement's string fields are present. -/
def add_or_update_course_requirement (db : CreditDB) (cc : CreditCourseRow)
    (req : Requirement) : CreditDB :=
  let ns := req.«namespace».getD ""
  let nm := req.name.getD ""
  if db.requirements.any (fun r =>
      r.course_key == cc.course_key && r.«namespace» == ns && r.name == nm) then
    { db with requirements := db.requirements.map (fun r =>
        if r.course_key == cc.course_key && r.«namespace» == ns && r.name == nm
        then { r with display_name := req.display_name.getD "",
                      criteria := req.criteria.getD "", active := true }
        else r) }
  else
    { db with requirements := db.requirements ++
        [⟨db.requirements.length, cc.course_key, ns, nm,
          req.display_name.getD "", req.criteria.getD "", true⟩] }

/-- Embeds `_get_requirements_to_disable`: the ids of the old requirement rows
for which no new requirement matches on (namespace, name). -/
def _get_requirements_to_disable (old_requirements : List CreditRequirementRow)
    (new_requirements : List Requirement) : List Nat :=
  (old_requirements.filter (fun old_req =>
    !(new_requirements.any (fun req =>
      req.«namespace».getD "" == old_req.«namespace» &&
        req.name.getD "" == old_req.name)))).map (fun old_req => old_req.id)

/-- The exceptions raised by `set_credit_requirements`. -/
inductive CreditError where
  | invalidCreditRequirements (invalid : List (Requirement × List String))
  | invalidCreditCourse
deriving DecidableEq

/-- Embeds `set_credit_requirements`: validate every requirement first,
raising `InvalidCreditRequirements` with the collected messages when any is
invalid; then look up the credit course, raising `InvalidCreditCourse` when
it does not exist; only then disable the requirements that disappeared and
add-or-update each given requirement. Returned as (result, updated store);
the error results leave the store unchanged. -/
def set_credit_requirements (db : CreditDB) (course_key : Nat)
    (requirements : List Requirement) : Except CreditError Unit × CreditDB :=
  let invalid_requirements := _validate_requirements requirements
  if invalid_requirements.isEmpty then
    match get_credit_course db course_key with
    | none => (.error .invalidCreditCourse, db)
    | some credit_course =>
        let old_requirements := get_course_requirements db course_key
        let requirements_to_disable :=
          _get_requirements_to_disable old_requirements requirements
        let db1 :=
          if requirements_to_disable.isEmpty then db
          else disable_credit_requirements db requirements_to_disable
        (.ok (), requirements.foldl
          (fun d requirement =>
            add_or_update_course_requirement d credit_course requirement) db1)
  else
    (.error (.invalidCreditRequirements invalid_requirements), db)

/-- Embeds `get_credit_requests_status`: the source body is the explicit stub
"TODO: Needs Will's work to check the credit user has purchased" and returns
the empty dict for every input. -/
def get_credit_requests_status (username : String) (course_key : Nat) :
    List (String × String) :=
  []

/-- Embeds `get_purchased_credit_courses`: the source body is the explicit
stub "TODO: How to track the purchased courses. It requires Will's work for
credit provider integration" and returns the empty dict for every input. -/
def get_purchased_credit_courses (username : String) : List (Nat × String) :=
  []

/-- A provider dict as collected by `_get_duration_and_providers`. -/
structure ProviderInfo where
  id : Nat
  display_name : String
  eligibility_duration : Option Nat
  provider_url : String
deriving DecidableEq

/-- The loop body of `_get_duration_and_providers`: append the provider's
dict and fold its (falsy-defaulted) eligibility duration into the running
maximum. -/
def durationStep (acc : Nat × List ProviderInfo) (provider : CreditProviderRow) :
    Nat × List ProviderInfo :=
  let providers_list := acc.2 ++
    [⟨provider.provider_id, provider.display_name,
      provider.eligibility_duration, provider.provider_url⟩]
  let eligibility_duration :=
    match provider.eligibility_duration with
    | some d => d
    | none => 0
  (max eligibility_duration acc.1, providers_list)

/-- Embeds `_get_duration_and_providers`: the max of the course's provider
eligibility durations together with the list of provider dicts. -/
def _get_duration_and_providers (credit_course : CreditCourseRow) :
    Nat × List ProviderInfo :=
  credit_course.providers.foldl durationStep (0, [])

/-- Embeds `_get_credit_request_status`: status and provider of the user's
credit request, both `None` when the request dict is falsy (empty). -/
def _get_credit_request_status (username : String) (course_key : Nat) :
    Option String × Option String :=
  let credit_request := get_credit_requests_status username course_key
  if credit_request.isEmpty then (none, none)
  else (credit_request.lookup "status", credit_request.lookup "provider")

/-- Modelled from the spec: `CreditEligibility.get_user_eligibility(username)`
— the user's eligibility rows. -/
def get_user_eligibility (db : CreditDB) (username : String) :
    List CreditEligibilityRow :=
  db.eligibilities.filter (fun e => e.username == username)

/-- One value of the dict returned by `get_credit_eligibility`: the five keys
that are always set, plus the "provider" key, present iff not `none`. -/
structure EligibilityInfo where
  is_eligible : Bool
  created_at : Nat
  seconds_good_for_display : Nat
  providers : List ProviderInfo
  status : String
  provider : Option String
deriving DecidableEq

/-- Embeds `get_credit_eligibility`: for each eligibility row of the user,
build the entry with `is_eligible = True`, the duration and provider list of
`_get_duration_and_providers`, the default status "requirements_meet", and
overwrite the status and set the provider key only when the credit-request
status is truthy. -/
def get_credit_eligibility (db : CreditDB) (username : String) :
    List (Nat × EligibilityInfo) :=
  (get_user_eligibility db username).map (fun eligibility =>
    let course_key := eligibility.course.course_key
    let dp := _get_duration_and_providers eligibility.course
    let info : EligibilityInfo :=
      { is_eligible := true
        created_at := eligibility.created
        seconds_good_for_display := dp.1
        providers := dp.2
        status := "requirements_meet"
        provider := none }
    let sp := _get_credit_request_status username course_key
    let info :=
      if truthy sp.1 then { info with status := sp.1.getD "", provider := sp.2 }
      else info
    (course_key, info))

theorem validate_eq_nil_iff (reqs : List Requirement) :
    _validate_requirements reqs = [] ↔
      ∀ r ∈ reqs, requirementValid r = true := by
  induction reqs with
  | nil => simp [_validate_requirements]
  | cons r rest ih =>
      simp only [_validate_requirements]
      cases h1 : truthy r.«namespace» <;> cases h2 : truthy r.name <;>
        cases h3 : truthy r.display_name <;> cases h4 : r.criteria <;>
        simp [requirementValid, h1, h2, h3, h4, ih]

theorem foldl_durationStep_fst (l : List CreditProviderRow) :
    ∀ (a : Nat) (b : List ProviderInfo),
      (l.foldl durationStep (a, b)).1 =
        (l.map (fun p => p.eligibility_duration.getD 0)).foldl max a := by
  induction l with
  | nil => intro a b; rfl
  | cons p ps ih =>
      intro a b
      simp only [List.foldl_cons, List.map_cons, durationStep]
      rw [ih]
      congr 1
      cases hd : p.eligibility_duration <;> simp [hd, Nat.max_comm]

/-- C7 counterexample: the per-course eligibility-duration computation
`_get_duration_and_providers` is not a stub: on a course with one provider of
duration 60 it returns that duration and a non-empty provider list rather
than a fixed empty/placeholder result. -/
theorem duration_computation_not_stub :
    _get_duration_and_providers ⟨5, [⟨12, "ASU", some 60, "url"⟩]⟩ =
      (60, [⟨12, "ASU", some 60, "url"⟩]) ∧
    _get_duration_and_providers ⟨5, [⟨12, "ASU", some 60, "url"⟩]⟩ ≠
      (0, []) := by
  constructor <;> decide

/-- C7 (amended): `get_credit_requests_status` and
`get_purchased_credit_courses` are explicit "TODO: Needs Will's work" stubs
returning the empty dict for every input — so `_get_credit_request_status` is
always `(None, None)` — while the per-course eligibility-duration computation
`_get_duration_and_providers` is implemented: it returns the maximum of the
course's provider eligibility durations. -/
theorem credit_stubs :
    (∀ (username : String) (course_key : Nat),
      get_credit_requests_status username course_key = [] ∧
      _get_credit_request_status username course_key = (none, none)) ∧
    (∀ username : String, get_purchased_credit_courses username = []) ∧
    (∀ cc : CreditCourseRow,
      (_get_duration_and_providers cc).1 =
        (cc.providers.map (fun p => p.eligibility_duration.getD 0)).foldl
          max 0) := by
  refine ⟨fun u ck => ⟨rfl, rfl⟩, fun u => rfl, fun cc => ?_⟩
  exact foldl_durationStep_fst cc.providers 0 []

/-- C9: `set_credit_requirements` validates before mutating: a requirement
with a missing or empty namespace, name or display name, or without a
criteria key, makes it fail with `InvalidCreditRequirements` and leave the
store unchanged; with valid requirements but no credit course it fails with
`InvalidCreditCourse` and leaves the store unchanged; the store changes only
when every requirement validates and the credit course exists. -/
theorem set_credit_requirements_validates_first :
    (∀ (db : CreditDB) (course_key : Nat) (reqs : List Requirement),
      (∃ r ∈ reqs, r.«namespace».getD "" = "" ∨ r.name.getD "" = "" ∨
        r.display_name.getD "" = "" ∨ r.criteria = none) →
      ∃ invalid, set_credit_requirements db course_key reqs =
        (.error (.invalidCreditRequirements invalid), db)) ∧
    (∀ (db : CreditDB) (course_key : Nat) (reqs : List Requirement),
      _validate_requirements reqs = [] →
      get_credit_course db course_key = none →
      set_credit_requirements db course_key reqs =
        (.error .invalidCreditCourse, db)) ∧
    (∀ (db : CreditDB) (course_key : Nat) (reqs : List Requirement),
      (set_credit_requirements db course_key reqs).2 ≠ db →
      _validate_requirements reqs = [] ∧
      ∃ cc, get_credit_course db course_key = some cc) := by
  refine ⟨?_, ?_, ?_⟩
  · rintro db ck reqs ⟨r, hr, hbad⟩
    have hval : ¬ _validate_requirements reqs = [] := by
      intro hnil
      have hv := (validate_eq_nil_iff reqs).mp hnil r hr
      rcases hbad with h | h | h | h <;>
        simp [requirementValid, truthy, h] at hv
    have hne : (_validate_requirements reqs).isEmpty = false := by
      cases hv : _validate_requirements reqs with
      | nil => exact absurd hv hval
      | cons a l => rfl
    exact ⟨_validate_requirements reqs, by simp [set_credit_requirements, hne]⟩
  · intro db ck reqs hval hcc
    simp [set_credit_requirements, hval, hcc]
  · intro db ck reqs hne
    cases hv : _validate_requirements reqs with
    | cons a l =>
        exact absurd (by simp [set_credit_requirements, hv]) hne
    | nil =>
        cases hcc : get_credit_course db ck with
        | none =>
            exact absurd (by simp [set_credit_requirements, hv, hcc]) hne
        | some cc => exact ⟨rfl, cc, rfl⟩

theorem set_credit_requirements_validates_first_witness :
    (∃ invalid, set_credit_requirements ⟨[⟨5, []⟩], [], []⟩ 5
        [⟨none, some "n", some "d", some "c"⟩] =
      (.error (.invalidCreditRequirements invalid), ⟨[⟨5, []⟩], [], []⟩)) ∧
    set_credit_requirements ⟨[⟨5, []⟩], [], []⟩ 6
        [⟨some "ns", some "n", some "d", some "c"⟩] =
      (.error .invalidCreditCourse, ⟨[⟨5, []⟩], [], []⟩) ∧
    (_validate_requirements [⟨some "ns", some "n", some "d", some "c"⟩] = [] ∧
      ∃ cc, get_credit_course ⟨[⟨5, []⟩], [], []⟩ 5 = some cc) := by
  refine ⟨?_, ?_, ?_⟩
  · exact set_credit_requirements_validates_first.1 ⟨[⟨5, []⟩], [], []⟩ 5
      [⟨none, some "n", some "d", some "c"⟩]
      ⟨⟨none, some "n", some "d", some "c"⟩, by decide, by decide⟩
  · exact set_credit_requirements_validates_first.2.1 ⟨[⟨5, []⟩], [], []⟩ 6
      [⟨some "ns", some "n", some "d", some "c"⟩] (by decide) (by decide)
  · exact set_credit_requirements_validates_first.2.2 ⟨[⟨5, []⟩], [], []⟩ 5
      [⟨some "ns", some "n", some "d", some "c"⟩] (by decide)

/-- C10: every entry of the mapping returned by `get_credit_eligibility`, for
every store and username, has `is_eligible = True`, status
"requirements_meet", and no provider key, because
`get_credit_requests_status` returns the empty dict for every input and so
`_get_credit_request_status` always returns `(None, None)`. -/
theorem get_credit_eligibility_defaults (db : CreditDB) (username : String)
    (k : Nat) (info : EligibilityInfo)
    (h : (k, info) ∈ get_credit_eligibility db username) :
    info.is_eligible = true ∧ info.status = "requirements_meet" ∧
      info.provider = none := by
  simp only [get_credit_eligibility, List.mem_map, _get_credit_request_status,
    get_credit_requests_status, truthy, Prod.mk.injEq] at h
  obtain ⟨e, he, h1, h2⟩ := h
  simp at h2
  subst h2
  exact ⟨rfl, rfl, rfl⟩

theorem get_credit_eligibility_defaults_witness :
    (⟨true, 100, 60, [⟨12, "ASU", some 60, "url"⟩], "requirements_meet",
        none⟩ : EligibilityInfo).is_eligible = true ∧
    (⟨true, 100, 60, [⟨12, "ASU", some 60, "url"⟩], "requirements_meet",
        none⟩ : EligibilityInfo).status = "requirements_meet" ∧
    (⟨true, 100, 60, [⟨12, "ASU", some 60, "url"⟩], "requirements_meet",
        none⟩ : EligibilityInfo).provider = none :=
  get_credit_eligibility_defaults
    ⟨[], [], [⟨"u", ⟨5, [⟨12, "ASU", some 60, "url"⟩]⟩, 100⟩]⟩ "u" 5
    ⟨true, 100, 60, [⟨12, "ASU", some 60, "url"⟩], "requirements_meet", none⟩
    (by decide)
